import Mathlib

/-!
Verification development for the `file_organizer.py` scan-classify-plan-execute-rollback
pipeline (repository OrganEyes).

The shallow embedding below translates the core pure logic of the source into Lean:

* file names are `List Char` (`Name`), filesystem paths are lists of components
  (`FsPath`), all relative to the fixed scan root;
* `os.path.splitext` / `pathlib` stem-suffix splitting, `clean_filename`,
  `should_skip_folder` and the directory-protection checks of
  `FileOrganizer._scan_directory` are direct functional translations;
* the scan's per-file size accounting (`FileOrganizer._analyze_file`) is a fold over
  a list of directory entries, each carrying the outcome of `lstat`
  (`none` models an `OSError`);
* the filesystem state seen by `FileExecutor` and `undo_moves` is a finite map from
  paths to file identities plus a finite set of directories; `shutil.move`,
  `Path.mkdir(parents=True, exist_ok=True)` (including the move-into-an-existing-
  directory behaviour of `shutil.move` and the partial creation of ancestor
  directories before a `FileExistsError`) and `rmdir` are modelled accordingly.
  Transient I/O errors, wall-clock timestamps, printed output and moves of whole
  directories are outside the model: the retry loop of `_execute_single_move`
  always succeeds at the first attempt in a deterministic filesystem.
-/

set_option maxRecDepth 4096

namespace OrganEyes

/-- A file or directory name: the characters of one path component. -/
abbrev Name := List Char

/-- A filesystem path relative to the scan root: the list of its components.
`[]` is the root itself. -/
abbrev FsPath := List Name

/-! ## `os.path.splitext` and `pathlib` stem/suffix -/

/-- Index of the last occurrence of `c` in `s`, if any (Python `str.rfind`). -/
def lastIdxOf (c : Char) (s : List Char) : Option Nat :=
  match s.reverse.findIdx? (fun d => decide (d = c)) with
  | none => none
  | some i => some (s.length - 1 - i)

/-- `os.path.splitext` (posix rule) restricted to strings without a directory
separator handled explicitly: the extension starts at the last dot, provided some
character strictly between the last separator and that dot is not a dot
(so names consisting of leading dots only, like `".txt"`, have no extension). -/
def splitext (s : List Char) : List Char × List Char :=
  match lastIdxOf '.' s with
  | none => (s, [])
  | some d =>
    let start : Nat :=
      match lastIdxOf '/' s with
      | none => 0
      | some j => j + 1
    if start ≤ d ∧ ((s.drop start).take (d - start)).any (fun c => decide (c ≠ '.')) then
      (s.take d, s.drop d)
    else
      (s, [])

/-- `pathlib.PurePath.stem` / `.suffix` on one name: the suffix starts at the last
dot when that dot is neither the first nor the last character. -/
def pathlibSplit (n : Name) : Name × Name :=
  match lastIdxOf '.' n with
  | none => (n, [])
  | some i =>
    if 0 < i ∧ i + 1 < n.length then (n.take i, n.drop i) else (n, [])

/-! ## `clean_filename` -/

/-- Characters removed by `name.strip(" .")`. -/
def isStripChar (c : Char) : Bool := decide (c = ' ') || decide (c = '.')

/-- Membership of the Python regex class `[\s_]`.  On `str` patterns, `\s` is
Unicode-aware: it matches exactly the characters of CPython's
`Py_UNICODE_ISSPACE` (U+0009–U+000D, U+001C–U+001F, space, NEL U+0085,
NBSP U+00A0, Ogham space U+1680, U+2000–U+200A, line/paragraph separators
U+2028/U+2029, narrow NBSP U+202F, medium mathematical space U+205F, and the
ideographic space U+3000). -/
def isWsU (c : Char) : Bool :=
  decide (c = '_') ||
    decide (0x09 ≤ c.toNat ∧ c.toNat ≤ 0x0d) ||
    decide (0x1c ≤ c.toNat ∧ c.toNat ≤ 0x1f) ||
    decide (c.toNat = 0x20) || decide (c.toNat = 0x85) || decide (c.toNat = 0xa0) ||
    decide (c.toNat = 0x1680) ||
    decide (0x2000 ≤ c.toNat ∧ c.toNat ≤ 0x200a) ||
    decide (c.toNat = 0x2028) || decide (c.toNat = 0x2029) ||
    decide (c.toNat = 0x202f) || decide (c.toNat = 0x205f) ||
    decide (c.toNat = 0x3000)

/-- Python `str.strip(" .")`: drop leading and trailing spaces and dots. -/
def stripChars (l : List Char) : List Char :=
  ((l.dropWhile isStripChar).reverse.dropWhile isStripChar).reverse

/-- Body of `collapseWs`: `inRun` records whether the previous character
belonged to a whitespace/underscore run (whose single replacement space was
already emitted). -/
def collapseGo (inRun : Bool) : List Char → List Char
  | [] => []
  | c :: r =>
    if isWsU c then
      if inRun then collapseGo true r else ' ' :: collapseGo true r
    else c :: collapseGo false r

/-- `re.sub(r'[\s_]+', ' ', name)`: replace each maximal run of whitespace or
underscores by a single space. -/
def collapseWs (l : List Char) : List Char := collapseGo false l

/-- Characters removed by `re.sub(r'[<>:"/\\|?*]', '', name)`. -/
def isIllegalChar (c : Char) : Bool :=
  decide (c = '<') || decide (c = '>') || decide (c = ':') || decide (c = '"') ||
    decide (c = '/') || decide (c = '\\') || decide (c = '|') || decide (c = '?') ||
    decide (c = '*')

/-- Removal of the problematic characters. -/
def removeIllegal (l : List Char) : List Char := l.filter (fun c => !(isIllegalChar c))

/-- `clean_filename`: split off the extension, strip spaces/dots, collapse
whitespace/underscore runs, remove illegal characters, truncate stems over 100
characters to 97 plus `"..."`, and reattach the extension unchanged. -/
def clean_filename (filename : List Char) : List Char :=
  let pr := splitext filename
  let n1 := stripChars pr.1
  let n2 := collapseWs n1
  let n3 := removeIllegal n2
  let n4 := if n3.length > 100 then n3.take 97 ++ ['.', '.', '.'] else n3
  n4 ++ pr.2

/-! ## Protection policy -/

/-- `should_skip_folder`: hidden (leading dot) or member of the protected set.
This helper is consulted by the scanner at every depth. -/
def should_skip_folder (folderName : Name) (protected_folders : List Name) : Bool :=
  if folderName.head? = some '.' then true
  else if folderName ∈ protected_folders then true
  else false

/-- The directory-skipping decision of `FileOrganizer._scan_directory` for a
directory entry `name` whose parent directory is named `parent`, encountered at
`depth`: the tier-1 check (depth 0, bare name), then the tier-2 check (depth 1,
`"parent/name"`), then `should_skip_folder` at any depth. -/
def scanDirSkips (name parent : Name) (depth : Nat) (prot : List Name) : Bool :=
  if depth = 0 ∧ name ∈ prot then true
  else if depth = 1 ∧ (parent ++ '/' :: name) ∈ prot then true
  else should_skip_folder name prot

/-- The protection predicate as the spec words it (`isProtected`): at depth 0 the
bare name is in the set, at depth 1 the composite `"parent/name"` is in the set,
or at any depth the name starts with a dot.  Stated only to compare the scanner's
actual behaviour against the spec sentence. -/
def isProtectedSpec (name : Name) (depth : Nat) (parent : Name) (prot : List Name) : Bool :=
  decide (depth = 0 ∧ name ∈ prot) || decide (depth = 1 ∧ (parent ++ '/' :: name) ∈ prot) ||
    decide (name.head? = some '.')

/-! ## Classifier -/

/-- The `FILE_CATEGORIES` extension table, in source (dict) order.  The `"Other"`
category has no extensions: it is the catch-all. -/
def fileCategories : List (Name × List Name) :=
  [ ("Documents".toList,
      List.map String.toList
        [".pdf", ".doc", ".docx", ".txt", ".rtf", ".odt", ".xls",
         ".xlsx", ".ppt", ".pptx", ".csv", ".md", ".epub", ".mobi"]),
    ("Images".toList,
      List.map String.toList
        [".jpg", ".jpeg", ".png", ".gif", ".bmp", ".svg", ".webp",
         ".tiff", ".ico", ".heic", ".raw", ".psd", ".ai"]),
    ("Videos".toList,
      List.map String.toList
        [".mp4", ".avi", ".mkv", ".mov", ".wmv", ".flv", ".webm",
         ".m4v", ".mpeg", ".mpg", ".3gp"]),
    ("Audio".toList,
      List.map String.toList
        [".mp3", ".wav", ".flac", ".aac", ".ogg", ".wma", ".m4a",
         ".aiff", ".opus"]),
    ("Code".toList,
      List.map String.toList
        [".py", ".js", ".ts", ".jsx", ".tsx", ".html", ".css",
         ".java", ".c", ".cpp", ".h", ".go", ".rs", ".rb", ".php",
         ".swift", ".kt", ".scala", ".sh", ".bash", ".zsh", ".sql",
         ".json", ".xml", ".yaml", ".yml", ".toml", ".ini", ".cfg"]),
    ("Archives".toList,
      List.map String.toList
        [".zip", ".rar", ".7z", ".tar", ".gz", ".bz2", ".xz",
         ".iso", ".dmg"]),
    ("Other".toList, []) ]

/-- The category names in table order (keys of `FILE_CATEGORIES`). -/
def categoryNames : List Name := fileCategories.map Prod.fst

/-- First category whose extension list contains `ext` (the extension lists are
pairwise disjoint, so this agrees with the source's last-wins reverse lookup
`EXTENSION_TO_CATEGORY`). -/
def findCategory (ext : Name) : List (Name × List Name) → Name
  | [] => "Other".toList
  | (cat, exts) :: rest => if ext ∈ exts then cat else findCategory ext rest

/-- `get_file_category`: lowercased `pathlib` suffix looked up in the table,
defaulting to `"Other"`. -/
def get_file_category (n : Name) : Name :=
  findCategory ((pathlibSplit n).2.map Char.toLower) fileCategories

/-! ## Scanner size accounting (`FileOrganizer._analyze_file`)

One `DirEntry` per visited file carries the result of `lstat` (`none` models an
`OSError` during `lstat`/`is_symlink`).  Modification-time years feed only the
year statistics and are not involved in the claims below, so they are omitted. -/

/-- Successful `lstat` data: device id, inode number, byte size, and whether the
entry is a symbolic link. -/
structure StatInfo where
  dev : Nat
  ino : Nat
  size : Nat
  sym : Bool
deriving DecidableEq, Repr

/-- One visited file: its name and its `lstat` outcome. -/
structure DirEntry where
  name : Name
  stat : Option StatInfo
deriving DecidableEq, Repr

/-- The identity key `(st_dev, st_ino)` of a regular (non-symlink, statable)
file, and `none` otherwise. -/
def keyOf (e : DirEntry) : Option (Nat × Nat) :=
  match e.stat with
  | none => none
  | some st => if st.sym then none else some (st.dev, st.ino)

/-- The `size` field recorded in `file_info`: 0 for symlinks and stat failures,
the `lstat` size otherwise. -/
def recSize (e : DirEntry) : Nat :=
  match e.stat with
  | none => 0
  | some st => if st.sym then 0 else st.size

/-- The size/effective-size/seen-inode logic of `_analyze_file`: returns the
recorded size, the effective size added to the per-category byte totals, and the
updated `seen_inodes` set. -/
def analyzeFile (seen : List (Nat × Nat)) (e : DirEntry) : Nat × Nat × List (Nat × Nat) :=
  match e.stat with
  | none => (0, 0, seen)
  | some st =>
    if st.sym then (0, 0, seen)
    else if (st.dev, st.ino) ∈ seen then (st.size, 0, seen)
    else (st.size, st.size, (st.dev, st.ino) :: seen)

/-- Add `v` to the byte total of category `c` (`category_stats[c]["size"] += v`,
with the `defaultdict` creating absent entries at 0). -/
def bumpCat (l : List (Name × Nat)) (c : Name) (v : Nat) : List (Name × Nat) :=
  match l with
  | [] => [(c, v)]
  | (k, x) :: r => if k = c then (k, x + v) :: r else (k, x) :: bumpCat r c v

/-- Byte total of category `c` (absent categories read as 0, as in the
`defaultdict`). -/
def catTotal (l : List (Name × Nat)) (c : Name) : Nat :=
  match l with
  | [] => 0
  | (k, x) :: r => if k = c then x else catTotal r c

/-- The scan fold: per-entry recorded sizes, per-entry effective sizes, and the
final per-category byte totals, threading `seen_inodes` and `category_stats`
through the visited entries in order. -/
def scanGo (seen : List (Nat × Nat)) (cats : List (Name × Nat)) :
    List DirEntry → List Nat × List Nat × List (Name × Nat)
  | [] => ([], [], cats)
  | e :: es =>
    let a := analyzeFile seen e
    let rest := scanGo a.2.2 (bumpCat cats (get_file_category e.name) a.2.1) es
    (a.1 :: rest.1, a.2.1 :: rest.2.1, rest.2.2)

/-- A whole scan, starting from an empty `seen_inodes` set and empty statistics. -/
def scanFiles (es : List DirEntry) : List Nat × List Nat × List (Name × Nat) :=
  scanGo [] [] es

/-- Identity keys of the regular files in a list of entries, in order. -/
def keysOf (es : List DirEntry) : List (Nat × Nat) := es.filterMap keyOf

/-- Placeholder entry for positional access. -/
def defaultEntry : DirEntry := { name := [], stat := none }

/-- The declarative effective size of entry `i` of a scan: 0 for symlinks and
stat failures; 0 for a regular file whose identity key already occurred at a
regular file earlier in the scan; its real size otherwise. -/
def effDecl (es : List DirEntry) (i : Nat) : Nat :=
  let e := es.getD i defaultEntry
  match keyOf e with
  | none => 0
  | some k => if k ∈ keysOf (es.take i) then 0 else recSize e

/-- Sum of the effective sizes of the entries of category `c`. -/
def catEffSum (c : Name) : List DirEntry → List Nat → Nat
  | e :: es, v :: vs => (if get_file_category e.name = c then v else 0) + catEffSum c es vs
  | _, _ => 0

/-! ## Filesystem state for the executor and the undo replayer -/

/-- Filesystem state under the scan root: a finite map from paths to file
identities (association list, first match wins) and the finite set of existing
directories.  The root `[]` itself always exists and is not listed. -/
structure FS where
  files : List (FsPath × Nat)
  dirs : List FsPath
deriving DecidableEq, Repr

/-- First-match association lookup. -/
def lookupF : List (FsPath × Nat) → FsPath → Option Nat
  | [], _ => none
  | (q, v) :: r, p => if q = p then some v else lookupF r p

/-- Remove every binding of the key `p`. -/
def eraseF (l : List (FsPath × Nat)) (p : FsPath) : List (FsPath × Nat) :=
  l.filter (fun qv => !(decide (qv.1 = p)))

/-- Boolean list membership of a path. -/
def memP (p : FsPath) (l : List FsPath) : Bool := l.any (fun q => decide (q = p))

/-- `Path.exists()`: a file or a directory is present at `p`. -/
def existsB (S : FS) (p : FsPath) : Bool := (lookupF S.files p).isSome || memP p S.dirs

/-- Every existing path (file keys, then directories). -/
def occList (S : FS) : List FsPath := S.files.map Prod.fst ++ S.dirs

/-- The ancestor chain created by `target.parent.mkdir(parents=True)`:
all nonempty proper prefixes of `target`, shortest first. -/
def parentsOf (p : FsPath) : List FsPath :=
  (List.range (p.length - 1)).map (fun i => p.take (i + 1))

/-- `mkdir(parents=True, exist_ok=True)` along a chain of directories, shortest
first: an existing directory is fine, a file at one of the positions raises
`FileExistsError` (returns `false`) with the directories created so far kept,
mirroring `os.makedirs`' partial creation. -/
def mkdirChain (S : FS) : List FsPath → FS × Bool
  | [] => (S, true)
  | q :: rest =>
    if (lookupF S.files q).isSome then (S, false)
    else if memP q S.dirs then mkdirChain S rest
    else mkdirChain { S with dirs := q :: S.dirs } rest

/-- `shutil.move(src, dst)` for a regular file `src`:
* if `dst` is an existing directory, the file is moved *into* it, to
  `dst/basename(src)`, raising (`none`) if that landing path already exists;
* otherwise the file is renamed to `dst`, silently replacing a file already
  there (POSIX `os.rename`).
`none` also models the error raised when `src` is not a regular file. -/
def moveFile (S : FS) (src dst : FsPath) : Option FS :=
  match lookupF S.files src with
  | none => none
  | some v =>
    if memP dst S.dirs then
      let d := dst ++ [src.getLastD []]
      if existsB S d then none
      else some { S with files := (d, v) :: eraseF (eraseF S.files src) d }
    else some { S with files := (dst, v) :: eraseF (eraseF S.files src) dst }

/-! ## Collision-avoiding unique paths (`FileExecutor._get_unique_path`) -/

/-- Decimal digit characters (`str(n)` renders base-10 digits with `'0'`-`'9'`). -/
def digitCh : Nat → Char
  | 0 => '0' | 1 => '1' | 2 => '2' | 3 => '3' | 4 => '4'
  | 5 => '5' | 6 => '6' | 7 => '7' | 8 => '8' | _ => '9'

/-- Big-endian decimal digits of `n`, with enough fuel (`n` itself suffices). -/
def natReprGo : Nat → Nat → List Char
  | 0, _ => []
  | fuel + 1, n => if n = 0 then [] else natReprGo fuel (n / 10) ++ [digitCh (n % 10)]

/-- Python `str(n)` for a natural number: its decimal digits. -/
def natRepr (n : Nat) : List Char :=
  if n = 0 then ['0'] else natReprGo n n

/-- The candidate name `f"{stem} ({counter}){suffix}"`. -/
def candName (stem sfx : Name) (k : Nat) : Name :=
  stem ++ (' ' :: '(' :: (natRepr k ++ (')' :: sfx)))

/-- The counter loop of `_get_unique_path`, with explicit fuel: try
`parent/candName(stem,sfx,k)`, `k`, `k+1`, … until a non-existing path is found.
The fuel `(occList S).length + 1` passed by `getUniquePath` is proven sufficient
(`getUniquePath_spec`), so the `none` branch is unreachable there. -/
def uniqueLoop (S : FS) (parent : FsPath) (stem sfx : Name) : Nat → Nat → Option FsPath
  | 0, _ => none
  | fuel + 1, k =>
    let cand := parent ++ [candName stem sfx k]
    if existsB S cand then uniqueLoop S parent stem sfx fuel (k + 1) else some cand

/-- `_get_unique_path`: return `p` itself when free, otherwise append `" (n)"`
before the extension of the final component (pathlib `stem`/`suffix`),
incrementing `n` from 1 until a free path is found. -/
def getUniquePath (S : FS) (p : FsPath) : Option FsPath :=
  if existsB S p = false then some p
  else
    match p.getLast? with
    | none => none
    | some nm =>
      let pr := pathlibSplit nm
      uniqueLoop S p.dropLast pr.1 pr.2 ((occList S).length + 1) 1

/-! ## Suggestions and the executor (`FileExecutor`) -/

/-- A planner suggestion record.  `finalPath` models the `"final_path"` key that
`_execute_single_move` writes into the dict when a collision is resolved: it is
absent (`none`) in every planner-produced record. -/
structure Sugg where
  originalPath : FsPath
  originalName : Name
  suggestedPath : FsPath
  suggestedName : Name
  category : Name
  year : Name
  size : Nat
  renameSuggested : Bool
  moveRequired : Bool
  finalPath : Option FsPath
deriving DecidableEq, Repr

/-- An `ExecutedMove` ledger record (absolute paths are root-relative here; the
wall-clock timestamp is not modelled). -/
structure Move where
  originalPath : FsPath
  newPath : FsPath
  size : Nat
deriving DecidableEq, Repr

/-- Terminal state of one suggestion in `_execute_single_move`. -/
inductive MoveOutcome where
  | moved (m : Move)
  | failedMove
  | skippedMove
deriving DecidableEq, Repr

/-- `FileExecutor._execute_single_move`: skip when the source vanished; resolve a
destination collision through `_get_unique_path`, recording the final path into
the suggestion; create the destination's parent chain (failure here is final);
then move.  In a deterministic filesystem the retry loop succeeds at the first
attempt, so the at-most-3-attempts backoff loop is not visible in the model. -/
def execMove (S : FS) (s : Sugg) : FS × MoveOutcome × Sugg :=
  if !(existsB S s.originalPath) then (S, .skippedMove, s)
  else
    let ts :=
      if existsB S s.suggestedPath then
        let t := (getUniquePath S s.suggestedPath).getD s.suggestedPath
        (t, { s with finalPath := some t })
      else (s.suggestedPath, s)
    match mkdirChain S (parentsOf ts.1) with
    | (S1, false) => (S1, .failedMove, ts.2)
    | (S1, true) =>
      match moveFile S1 s.originalPath ts.1 with
      | none => (S1, .failedMove, ts.2)
      | some S2 =>
        (S2, .moved { originalPath := s.originalPath, newPath := ts.1, size := s.size }, ts.2)

/-- The filter predicate of `FileExecutor.execute`: the optional category filter,
then the optional year filter, then `move_required`. -/
def execPred (cf yf : Option Name) (s : Sugg) : Bool :=
  (match cf with | none => true | some c => decide (s.category = c)) &&
    (match yf with | none => true | some y => decide (s.year = y)) &&
    s.moveRequired

/-- The execution loop over the suggestion list.  The source filters the shared
records first and then iterates over the filtered list; since filtering
preserves order, the predicate fields are read once at filter time, and the
records are shared, this equals iterating over the full list and acting only on
records satisfying the predicate, which is the shape used here so that the
in-place mutations (`final_path`) are visible in the full output list.
Returns (state, executed ledger, failed count, skipped count, output records). -/
def execLoop (S : FS) (p : Sugg → Bool) :
    List Sugg → FS × List Move × Nat × Nat × List Sugg
  | [] => (S, [], 0, 0, [])
  | s :: rest =>
    if p s then
      let r1 := execMove S s
      let r2 := execLoop r1.1 p rest
      match r1.2.1 with
      | .moved m => (r2.1, m :: r2.2.1, r2.2.2.1, r2.2.2.2.1, r1.2.2 :: r2.2.2.2.2)
      | .failedMove => (r2.1, r2.2.1, r2.2.2.1 + 1, r2.2.2.2.1, r1.2.2 :: r2.2.2.2.2)
      | .skippedMove => (r2.1, r2.2.1, r2.2.2.1, r2.2.2.2.1 + 1, r1.2.2 :: r2.2.2.2.2)
    else
      let r2 := execLoop S p rest
      (r2.1, r2.2.1, r2.2.2.1, r2.2.2.2.1, s :: r2.2.2.2.2)

/-- Result of one `FileExecutor.execute` invocation.  `saveCount` counts the
`_save_rollback` calls; `savedLedger` is the executed-moves list persisted by the
(single) save, if any. -/
structure ExecResult where
  fs : FS
  moves : List Move
  failedCount : Nat
  skippedCount : Nat
  saveCount : Nat
  savedLedger : Option (List Move)
  suggsOut : List Sugg
deriving DecidableEq, Repr

/-- `FileExecutor.execute`: filter, return early (without saving a ledger) when
nothing needs moving; ask for confirmation when `confirmAsk` (a declined
confirmation returns with everything counted skipped and no ledger saved);
otherwise run the moves and persist the rollback ledger exactly once. -/
def execBatch (S : FS) (suggs : List Sugg) (cf yf : Option Name)
    (confirmAsk confirmYes : Bool) : ExecResult :=
  let p := execPred cf yf
  if suggs.filter p = [] then
    { fs := S, moves := [], failedCount := 0, skippedCount := 0,
      saveCount := 0, savedLedger := none, suggsOut := suggs }
  else if confirmAsk && !confirmYes then
    { fs := S, moves := [], failedCount := 0, skippedCount := (suggs.filter p).length,
      saveCount := 0, savedLedger := none, suggsOut := suggs }
  else
    let r := execLoop S p suggs
    { fs := r.1, moves := r.2.1, failedCount := r.2.2.1, skippedCount := r.2.2.2.1,
      saveCount := 1, savedLedger := some r.2.1, suggsOut := r.2.2.2.2 }

/-! ## Undo replayer (`undo_moves`) and empty-directory cleanup -/

/-- One undo step for a ledger move: skip silently when the `new` path no longer
exists; otherwise recreate the original parent chain and move the file back
(`OSError`s from `mkdir`/`shutil.move` are caught and counted as failed).
The accumulator is (state, undone count, failed count). -/
def undoStep (acc : FS × Nat × Nat) (m : Move) : FS × Nat × Nat :=
  if !(existsB acc.1 m.newPath) then acc
  else
    match mkdirChain acc.1 (parentsOf m.originalPath) with
    | (S1, false) => (S1, acc.2.1, acc.2.2 + 1)
    | (S1, true) =>
      match moveFile S1 m.newPath m.originalPath with
      | none => (S1, acc.2.1, acc.2.2 + 1)
      | some S2 => (S2, acc.2.1 + 1, acc.2.2)

/-- The undo loop body over an already-reversed move list. -/
def undoGo (acc : FS × Nat × Nat) : List Move → FS × Nat × Nat
  | [] => acc
  | m :: ms => undoGo (undoStep acc m) ms

/-- `for move in reversed(moves)`: undo the ledger most recent move first. -/
def undoRun (S : FS) (ms : List Move) : FS × Nat × Nat := undoGo (S, 0, 0) ms.reverse

/-- Is `e` a proper extension of `d` (an entry inside directory `d`, possibly
deeper)?  `any(dir_path.iterdir())` sees the immediate children; in a well-formed
state a deeper entry implies an immediate child directory, so directory
non-emptiness is equivalent to having any proper extension present. -/
def insideDir (d e : FsPath) : Bool := decide (e.take d.length = d) && decide (e ≠ d)

/-- Does directory `d` currently contain anything? -/
def dirNonempty (S : FS) (d : FsPath) : Bool :=
  S.files.any (fun fv => insideDir d fv.1) || S.dirs.any (fun e => insideDir d e)

/-- Remove a directory entry (`rmdir`). -/
def removeDir (S : FS) (d : FsPath) : FS :=
  { S with dirs := S.dirs.filter (fun e => !(decide (e = d))) }

/-- Insert into a list of paths kept in non-increasing length order. -/
def insertLenDesc (d : FsPath) : List FsPath → List FsPath
  | [] => [d]
  | e :: r => if d.length ≤ e.length then e :: insertLenDesc d r else d :: e :: r

/-- Sort paths by non-increasing length: the bottom-up visiting order of
`os.walk(topdown=False)` (subdirectories are yielded before their parents;
same-depth directories have disjoint subtrees, so their relative order does not
affect which directories end up removed). -/
def sortLenDesc : List FsPath → List FsPath
  | [] => []
  | d :: r => insertLenDesc d (sortLenDesc r)

/-- `_cleanup_empty_dirs` for one category: when `root/category` is an existing
directory, walk its recorded subtree bottom-up and remove every directory that
is empty at visit time. -/
def cleanupCat (S : FS) (c : Name) : FS :=
  if memP [c] S.dirs then
    (sortLenDesc (S.dirs.filter (fun d => decide (d.take 1 = [c])))).foldl
      (fun T d => if dirNonempty T d then T else removeDir T d) S
  else S

/-- `_cleanup_empty_dirs`: the bottom-up empty-directory sweep under each
category root, in table order. -/
def cleanupEmptyDirs (S : FS) : FS := categoryNames.foldl cleanupCat S

/-- A parsed rollback ledger (the persisted executed-moves list; the failed and
skipped records and the timestamps are not read by `undo_moves`). -/
structure Ledger where
  moves : List Move
deriving DecidableEq, Repr

/-- Operation-level outcome of `undo_moves`, mirroring its returned dict:
`fileNotFound` = `{"success": False, "error": "file_not_found"}`;
`crashed` = the uncaught `json.JSONDecodeError` from `json.load`;
`emptySuccess` = `{"success": True, "undone": 0}` for a ledger with no moves;
`cancelled` = `{"success": False, "error": "cancelled"}`;
`completed u f` = `{"success": True, "undone": u, "failed": f}`. -/
inductive UndoOutcome where
  | fileNotFound
  | crashed
  | emptySuccess
  | cancelled
  | completed (undone failed : Nat)
deriving DecidableEq, Repr

/-- `undo_moves`: the ledger file argument is `none` when the file is missing,
`some none` when present but unparseable, `some (some l)` when parsed as `l`.
On a parsed nonempty ledger and a granted confirmation, the moves are undone in
reverse order and the empty-directory cleanup runs. -/
def undoMoves (S : FS) (ledgerFile : Option (Option Ledger)) (confirmYes : Bool) :
    FS × UndoOutcome :=
  match ledgerFile with
  | none => (S, .fileNotFound)
  | some none => (S, .crashed)
  | some (some led) =>
    if led.moves = [] then (S, .emptySuccess)
    else if !confirmYes then (S, .cancelled)
    else
      let r := undoRun S led.moves
      (cleanupEmptyDirs r.1, .completed r.2.1 r.2.2)

/-! ## Concrete scenario inputs

Concrete names, roots, suggestion batches and scans used by the evaluation
theorems and witnesses below. -/

/-- The file name `"Other"` (also the catch-all category name). -/
def nmOther : Name := "Other".toList

/-- The name `"2020"`. -/
def nm2020 : Name := "2020".toList

/-- The name `"2023"`. -/
def nm2023 : Name := "2023".toList

/-- The name `"z.bin"`. -/
def nmZ : Name := "z.bin".toList

/-- The name `"Documents"`. -/
def nmDocuments : Name := "Documents".toList

/-- The name `"a.txt"`. -/
def nmA : Name := "a.txt".toList

/-- Round-trip scenario root: directory `Other` with the file `2023` inside
(file id 1, modification year 2020), and the root file `z.bin` (file id 2,
modification year 2023). -/
def c1InitialFS : FS :=
  { files := [([nmOther, nm2023], 1), ([nmZ], 2)], dirs := [[nmOther]] }

/-- Planner suggestion for the file `Other/2023` (category `Other`, year 2020). -/
def c1Sugg1 : Sugg where
  originalPath := [nmOther, nm2023]
  originalName := nm2023
  suggestedPath := [nmOther, nm2020, nm2023]
  suggestedName := nm2023
  category := nmOther
  year := nm2020
  size := 5
  renameSuggested := false
  moveRequired := true
  finalPath := none

/-- Planner suggestion for the file `z.bin` (category `Other`, year 2023). -/
def c1Sugg2 : Sugg where
  originalPath := [nmZ]
  originalName := nmZ
  suggestedPath := [nmOther, nm2023, nmZ]
  suggestedName := nmZ
  category := nmOther
  year := nm2023
  size := 7
  renameSuggested := false
  moveRequired := true
  finalPath := none

/-- The executed batch on the round-trip scenario. -/
def c1Exec : ExecResult := execBatch c1InitialFS [c1Sugg1, c1Sugg2] none none false true

/-- Undoing the persisted ledger of the round-trip scenario batch. -/
def c1Undo : FS × UndoOutcome :=
  undoMoves c1Exec.fs (some (some { moves := c1Exec.moves })) true

/-- Concrete scan with a regular file, a symlink, and a second regular file
hardlinked to the first (same device and inode). -/
def c3Entries : List DirEntry :=
  [ { name := "a.pdf".toList, stat := some { dev := 1, ino := 1, size := 100, sym := false } },
    { name := "b.pdf".toList, stat := some { dev := 1, ino := 9, size := 77, sym := true } },
    { name := "c.pdf".toList, stat := some { dev := 1, ino := 1, size := 50, sym := false } } ]

/-- Two visited paths of one hardlinked Documents file (same device and inode). -/
def c10Entries : List DirEntry :=
  [ { name := "a.pdf".toList, stat := some { dev := 2, ino := 3, size := 40, sym := false } },
    { name := "b.pdf".toList, stat := some { dev := 2, ino := 3, size := 40, sym := false } } ]

/-- A ledger move whose `new` path does not exist in the round-trip root. -/
def c7Move : Move :=
  { originalPath := ["a".toList], newPath := ["gone".toList], size := 1 }

/-- Collision scenario root: the target `Documents/2023/a.txt` is already
occupied (file id 1) when the root file `a.txt` (file id 2) is moved there. -/
def c4CollisionFS : FS :=
  { files := [([nmDocuments, nm2023, nmA], 1), ([nmA], 2)],
    dirs := [[nmDocuments], [nmDocuments, nm2023]] }

/-- Planner suggestion for the colliding root file `a.txt`. -/
def c4CollisionSugg : Sugg where
  originalPath := [nmA]
  originalName := nmA
  suggestedPath := [nmDocuments, nm2023, nmA]
  suggestedName := nmA
  category := nmDocuments
  year := nm2023
  size := 7
  renameSuggested := false
  moveRequired := true
  finalPath := none

/-- Single-suggestion root for the batch-contract witness: the root file
`b.txt` (file id 5) still has to be moved to `Documents/2024/b.txt`. -/
def c2FS : FS := { files := [(["b.txt".toList], 5)], dirs := [] }

/-- Planner suggestion for `b.txt`. -/
def c2Sugg : Sugg where
  originalPath := ["b.txt".toList]
  originalName := "b.txt".toList
  suggestedPath := [nmDocuments, "2024".toList, "b.txt".toList]
  suggestedName := "b.txt".toList
  category := nmDocuments
  year := "2024".toList
  size := 3
  renameSuggested := false
  moveRequired := true
  finalPath := none

/-- The ledger record produced by executing `c2Sugg` on `c2FS`. -/
def c2MoveW : Move :=
  { originalPath := ["b.txt".toList],
    newPath := [nmDocuments, "2024".toList, "b.txt".toList], size := 3 }

/-- A suggestion that needs no move (`move_required = false`). -/
def c2SuggNoMove : Sugg where
  originalPath := [nmDocuments, nm2023, nmA]
  originalName := nmA
  suggestedPath := [nmDocuments, nm2023, nmA]
  suggestedName := nmA
  category := nmDocuments
  year := nm2023
  size := 7
  renameSuggested := false
  moveRequired := false
  finalPath := none

/-- Placeholder suggestion for positional access. -/
def defaultSugg : Sugg where
  originalPath := []
  originalName := []
  suggestedPath := []
  suggestedName := []
  category := []
  year := []
  size := 0
  renameSuggested := false
  moveRequired := false
  finalPath := none

/-- Equality of two suggestion records on every field except `finalPath`
(the key `_execute_single_move` writes on collisions). -/
def eqExceptFinal (a b : Sugg) : Prop :=
  a.originalPath = b.originalPath ∧ a.originalName = b.originalName ∧
    a.suggestedPath = b.suggestedPath ∧ a.suggestedName = b.suggestedName ∧
    a.category = b.category ∧ a.year = b.year ∧ a.size = b.size ∧
    a.renameSuggested = b.renameSuggested ∧ a.moveRequired = b.moveRequired

/-! ## General lemmas -/

/-- `splitext` only cuts its input in two: stem and extension recombine to it. -/
theorem splitext_fst_append_snd (s : List Char) : (splitext s).1 ++ (splitext s).2 = s := by
  unfold splitext
  cases h : lastIdxOf '.' s with
  | none => simp
  | some d =>
    dsimp only
    split
    · exact List.take_append_drop d s
    · simp

/-- When the re-split stem of a cleaned name is fixed by every cleaning stage
and needs no truncation, cleaning it again returns it unchanged. -/
theorem clean_filename_of_fixed (y n e : List Char) (hsp : splitext y = (n, e))
    (h1 : stripChars n = n) (h2 : collapseWs n = n) (h3 : removeIllegal n = n)
    (h4 : n.length ≤ 100) : clean_filename y = n ++ e := by
  unfold clean_filename
  rw [hsp]
  dsimp only
  rw [h1, h2, h3, if_neg (by omega)]

/-! ## Claim C5: idempotence of sanitization -/

/-- C5 counterexample: sanitization is **not** idempotent.  For `"a_.txt"` the
first pass yields `"a .txt"` (the underscore collapses to a space that `strip`
has already run too early to remove), and the second pass strips that now
trailing space of the stem, yielding `"a.txt"`. -/
theorem c5_sanitize_not_idempotent :
    clean_filename (clean_filename ("a_.txt".toList)) ≠ clean_filename ("a_.txt".toList) := by
  decide

/-- C5 (amended): sanitization is idempotent on every file name whose sanitized
form, split again into stem and extension, has a stem that is fixed by the
stripping, collapsing and illegal-character stages and does not exceed 100
characters.  (In general idempotence fails, e.g. on `"a_.txt"`.) -/
theorem c5_sanitize_idempotent_on_fixed (x n e : List Char)
    (hsp : splitext (clean_filename x) = (n, e))
    (h1 : stripChars n = n) (h2 : collapseWs n = n) (h3 : removeIllegal n = n)
    (h4 : n.length ≤ 100) :
    clean_filename (clean_filename x) = clean_filename x := by
  have hrec : n ++ e = clean_filename x := by
    have h := splitext_fst_append_snd (clean_filename x)
    rw [hsp] at h
    exact h
  rw [clean_filename_of_fixed (clean_filename x) n e hsp h1 h2 h3 h4, hrec]

/-- C5 witness: the amended idempotence applied at the concrete name `"a.txt"`. -/
theorem c5_sanitize_idempotent_on_fixed_w :
    clean_filename (clean_filename ("a.txt".toList)) = clean_filename ("a.txt".toList) :=
  c5_sanitize_idempotent_on_fixed ("a.txt".toList) ("a".toList) (".txt".toList)
    (by decide) (by decide) (by decide) (by decide) (by decide)

/-! ## Claim C6: the protection predicate -/

/-- C6 counterexample: a bare protected name skips a same-named directory at
depth 2 as well, where the spec's `isProtected` predicate says it must not: with
the protection set `{"X"}`, the directory `"X"` below parent `"P"` at depth 2 is
skipped by the scanner but not protected according to the spec formula. -/
theorem c6_protection_depth2_mismatch :
    scanDirSkips ("X".toList) ("P".toList) 2 [("X".toList)] = true ∧
      isProtectedSpec ("X".toList) 2 ("P".toList) [("X".toList)] = false := by
  decide

/-- C6 (amended): the scanner skips a directory exactly when its bare name is in
the protection set (at **any** depth, because `should_skip_folder` re-checks
membership), or its name starts with a dot, or the depth is 1 and the composite
`"parent/name"` is in the set.  Consequently a bare protected name does cause
same-named directories deeper in the tree to be skipped. -/
theorem c6_protection_characterization (name parent : Name) (depth : Nat)
    (prot : List Name) :
    scanDirSkips name parent depth prot =
      (decide (name ∈ prot) || decide (name.head? = some '.') ||
        (decide (depth = 1) && decide ((parent ++ '/' :: name) ∈ prot))) := by
  unfold scanDirSkips should_skip_folder
  by_cases h0 : depth = 0 <;> by_cases h1 : depth = 1 <;>
    by_cases hm : name ∈ prot <;> by_cases hh : name.head? = some '.' <;>
    by_cases hc : (parent ++ '/' :: name) ∈ prot <;>
    simp_all

/-! ## Claim C8: missing or unparseable ledger on undo -/

/-- C8: an undo invocation whose ledger file is missing aborts with the fatal
`file_not_found` error, and one whose ledger file is unparseable propagates the
parse exception; in both cases the filesystem is untouched, zero moves are
undone, and the outcome is never a success (`completed`/`emptySuccess`). -/
theorem c8_ledger_errors_are_fatal (S : FS) (c : Bool) :
    undoMoves S none c = (S, .fileNotFound) ∧
      undoMoves S (some none) c = (S, .crashed) ∧
      (∀ u f : Nat, (undoMoves S none c).2 ≠ .completed u f ∧
        (undoMoves S (some none) c).2 ≠ .completed u f) ∧
      (undoMoves S none c).2 ≠ .emptySuccess ∧
      (undoMoves S (some none) c).2 ≠ .emptySuccess :=
  ⟨rfl, rfl, fun _ _ => ⟨by simp [undoMoves], by simp [undoMoves]⟩,
    by simp [undoMoves], by simp [undoMoves]⟩

/-! ## Claim C1: the execute/undo round trip

The concrete scan root below breaks the round trip.  It contains a directory
`Other` holding a regular file named `2023` (no extension, so category `Other`;
modification year 2020), and a root file `z.bin` (unknown extension, so category
`Other`; modification year 2023).  The planner therefore suggests
`Other/2023 -> Other/2020/2023` and `z.bin -> Other/2023/z.bin`, sorted in
exactly this order by `(category, year, original name)`.

Executing the batch first vacates the file path `Other/2023` and then creates a
**directory** at that very path for the second move.  During undo (reverse
order) `z.bin` returns home and `Other/2023` becomes an empty directory; the
subsequent `shutil.move(root/Other/2020/2023, root/Other/2023)` then moves the
file *into* that directory — landing at `Other/2023/2023` — instead of restoring
it to its original absolute path, while `undo_moves` still reports full
success. -/

/-- C1: evaluation of the code at the failing input.  Both moves of the batch
succeed (nothing fails or is skipped and the ledger is persisted), undoing the
resulting ledger reports full success (2 undone, 0 failed), and yet the file
whose original absolute path is `Other/2023` is **not** restored there: its
original path is a (nonempty) directory afterwards and the file sits at
`Other/2023/2023`.  This refutes the claimed round trip on the code as written;
the claim matches the documented intent (reversible moves, exact undo), so the
divergence is a code bug in `undo_moves`, which never checks whether the
original path has become a directory before calling `shutil.move`. -/
theorem c1_undo_does_not_restore_original_path :
    c1Exec.moves.map Move.originalPath = [[nmOther, nm2023], [nmZ]] ∧
      c1Exec.failedCount = 0 ∧ c1Exec.skippedCount = 0 ∧ c1Exec.saveCount = 1 ∧
      c1Undo.2 = .completed 2 0 ∧
      lookupF c1Undo.1.files [nmOther, nm2023] = none ∧
      memP [nmOther, nm2023] c1Undo.1.dirs = true ∧
      lookupF c1Undo.1.files [nmOther, nm2023, nm2023] = some 1 := by
  decide

/-! ## Scan accounting lemmas -/

/-- The recorded size produced by `_analyze_file` is `recSize`. -/
theorem analyzeFile_fst (seen : List (Nat × Nat)) (e : DirEntry) :
    (analyzeFile seen e).1 = recSize e := by
  unfold analyzeFile recSize
  cases e.stat with
  | none => rfl
  | some st =>
    dsimp only
    by_cases hs : st.sym
    · simp [hs]
    · by_cases hm : (st.dev, st.ino) ∈ seen <;> simp [hs, hm]

/-- Membership in the updated `seen_inodes` set after one `_analyze_file` step. -/
theorem analyzeFile_seen_mem (seen : List (Nat × Nat)) (e : DirEntry) (k : Nat × Nat) :
    (k ∈ (analyzeFile seen e).2.2) ↔ (k ∈ seen ∨ keyOf e = some k) := by
  unfold analyzeFile keyOf
  cases e.stat with
  | none => simp
  | some st =>
    dsimp only
    by_cases hs : st.sym
    · simp [hs]
    · by_cases hm : (st.dev, st.ino) ∈ seen
      · simp only [hs, hm, if_true, if_false, Bool.false_eq_true, Option.some.injEq]
        constructor
        · exact fun h => Or.inl h
        · rintro (h | h)
          · exact h
          · exact h ▸ hm
      · simp only [hs, hm, if_true, if_false, Bool.false_eq_true, Option.some.injEq,
          List.mem_cons]
        constructor
        · rintro (h | h)
          · exact Or.inr h.symm
          · exact Or.inl h
        · rintro (h | h)
          · exact Or.inr h
          · exact Or.inl h.symm

/-- The effective size produced by one `_analyze_file` step. -/
theorem analyzeFile_eff (seen : List (Nat × Nat)) (e : DirEntry) :
    (analyzeFile seen e).2.1 =
      (match keyOf e with
       | none => 0
       | some k => if k ∈ seen then 0 else recSize e) := by
  unfold analyzeFile keyOf recSize
  cases e.stat with
  | none => rfl
  | some st =>
    dsimp only
    by_cases hs : st.sym
    · simp [hs]
    · by_cases hm : (st.dev, st.ino) ∈ seen <;> simp [hs, hm]

/-- `keysOf` on a cons. -/
theorem keysOf_cons (e : DirEntry) (es : List DirEntry) :
    keysOf (e :: es) = match keyOf e with
      | none => keysOf es
      | some k => k :: keysOf es := by
  unfold keysOf
  cases h : keyOf e <;> simp [List.filterMap_cons, h]

/-- The recorded-size stream of a scan is `recSize` pointwise. -/
theorem scanGo_sizes (es : List DirEntry) :
    ∀ seen cats, (scanGo seen cats es).1 = es.map recSize := by
  induction es with
  | nil => intro seen cats; rfl
  | cons e es ih =>
    intro seen cats
    simp only [scanGo, List.map_cons, ih, analyzeFile_fst]

/-- Per-entry effective size of a scan started from an arbitrary `seen` set:
0 unless the entry is a regular file whose key is neither in `seen` nor among
the keys of the earlier entries. -/
theorem scanGo_eff (es : List DirEntry) :
    ∀ (seen : List (Nat × Nat)) (cats : List (Name × Nat)) (i : Nat), i < es.length →
      (scanGo seen cats es).2.1.getD i 0 =
        (match keyOf (es.getD i defaultEntry) with
         | none => 0
         | some k =>
           if k ∈ seen ∨ k ∈ keysOf (es.take i) then 0
           else recSize (es.getD i defaultEntry)) := by
  induction es with
  | nil => intro seen cats i h; simp at h
  | cons e es ih =>
    intro seen cats i h
    match i with
    | 0 =>
      show (analyzeFile seen e).2.1 = _
      rw [analyzeFile_eff]
      have hget : (e :: es).getD 0 defaultEntry = e := rfl
      rw [hget]
      cases hk : keyOf e with
      | none => rfl
      | some k => simp [keysOf]
    | j + 1 =>
      have hj : j < es.length := by simpa using h
      have step := ih (analyzeFile seen e).2.2
        (bumpCat cats (get_file_category e.name) (analyzeFile seen e).2.1) j hj
      show (scanGo (analyzeFile seen e).2.2 _ es).2.1.getD j 0 = _
      rw [step]
      have hmem : ∀ k : Nat × Nat,
          (k ∈ (analyzeFile seen e).2.2 ∨ k ∈ keysOf (es.take j)) ↔
            (k ∈ seen ∨ k ∈ keysOf ((e :: es).take (j + 1))) := by
        intro k
        rw [List.take_succ_cons, keysOf_cons, analyzeFile_seen_mem]
        cases hk : keyOf e with
        | none => simp [hk]
        | some k' =>
          simp only [hk, List.mem_cons, Option.some.injEq]
          constructor
          · rintro ((h | h) | h)
            · exact Or.inl h
            · exact Or.inr (Or.inl h.symm)
            · exact Or.inr (Or.inr h)
          · rintro (h | (h | h))
            · exact Or.inl (Or.inl h)
            · exact Or.inl (Or.inr h.symm)
            · exact Or.inr h
      show _ = (match keyOf ((e :: es).getD (j + 1) defaultEntry) with
         | none => 0
         | some k =>
           if k ∈ seen ∨ k ∈ keysOf ((e :: es).take (j + 1)) then 0
           else recSize ((e :: es).getD (j + 1) defaultEntry))
      have hget : (e :: es).getD (j + 1) defaultEntry = es.getD j defaultEntry := rfl
      rw [hget]
      cases hk : keyOf (es.getD j defaultEntry) with
      | none => rfl
      | some k => simp only [hmem k]

/-- `bumpCat` adds exactly `v` to the total of its key. -/
theorem catTotal_bumpCat (l : List (Name × Nat)) (k : Name) (v : Nat) (c : Name) :
    catTotal (bumpCat l k v) c = catTotal l c + (if k = c then v else 0) := by
  induction l with
  | nil =>
    by_cases h : k = c <;> simp [bumpCat, catTotal, h]
  | cons p r ih =>
    obtain ⟨q, x⟩ := p
    by_cases hqk : q = k
    · subst hqk
      by_cases hqc : q = c <;> simp [bumpCat, catTotal, hqc]
    · by_cases hqc : q = c
      · subst hqc
        have hkc : ¬(k = q) := fun hh => hqk hh.symm
        simp [bumpCat, catTotal, hqk, hkc]
      · simp [bumpCat, catTotal, hqk, hqc, ih]

/-- The per-category byte totals of a scan are the initial totals plus the
category-filtered sum of the effective sizes. -/
theorem scanGo_cats (es : List DirEntry) :
    ∀ seen cats c, catTotal (scanGo seen cats es).2.2 c =
      catTotal cats c + catEffSum c es (scanGo seen cats es).2.1 := by
  induction es with
  | nil => intro seen cats c; simp [scanGo, catEffSum]
  | cons e es ih =>
    intro seen cats c
    show catTotal (scanGo _ _ es).2.2 c = _
    rw [ih]
    rw [catTotal_bumpCat]
    show _ = catTotal cats c +
      ((if get_file_category e.name = c then (analyzeFile seen e).2.1 else 0) +
        catEffSum c es (scanGo _ _ es).2.1)
    omega

/-! ## Claim C3: effective size counted at most once per identity key -/

/-- C3: in every scan, the effective size an entry adds to the per-category byte
totals follows the first-occurrence rule — a symlink or stat-failed entry adds 0
whatever its key, a regular file whose `(st_dev, st_ino)` key already occurred
at an earlier regular entry adds 0, and otherwise the entry adds its real size —
and the byte total of each category is exactly the sum of these effective sizes
over its entries. -/
theorem c3_effective_size_once_per_key (es : List DirEntry) (c : Name) (i : Nat)
    (h : i < es.length) :
    (scanFiles es).2.1.getD i 0 = effDecl es i ∧
      catTotal (scanFiles es).2.2 c = catEffSum c es (scanFiles es).2.1 := by
  constructor
  · rw [scanFiles, scanGo_eff es [] [] i h, effDecl]
    cases hk : keyOf (es.getD i defaultEntry) with
    | none => rfl
    | some k => simp
  · rw [scanFiles, scanGo_cats es [] [] c]
    simp [catTotal]

/-- C3 witness: the first-occurrence rule and the category totals, evaluated on
a hardlinked pair with a symlink in between (the hardlink's second occurrence
contributes 0, the symlink contributes 0). -/
theorem c3_effective_size_once_per_key_w :
    ((scanFiles c3Entries).2.1.getD 2 0 = effDecl c3Entries 2 ∧
      catTotal (scanFiles c3Entries).2.2 ("Documents".toList) =
        catEffSum ("Documents".toList) c3Entries (scanFiles c3Entries).2.1) ∧
      (scanFiles c3Entries).2.1 = [100, 0, 0] ∧
      catTotal (scanFiles c3Entries).2.2 ("Documents".toList) = 100 :=
  ⟨c3_effective_size_once_per_key c3Entries ("Documents".toList) 2 (by decide),
    by decide, by decide⟩

/-! ## Claim C10: the summary total counts raw sizes -/

/-- A list of copies of `s` sums to its length times `s`. -/
theorem sumConstList (l : List Nat) (s : Nat) (h : ∀ x ∈ l, x = s) :
    l.sum = l.length * s := by
  induction l with
  | nil => simp
  | cons a r ih =>
    have ha := h a (by simp)
    have hr := ih (fun x hx => h x (by simp [hx]))
    simp only [List.sum_cons, List.length_cons, ha, hr]
    ring

/-- Entries whose identity key is already in `seen_inodes` leave every category
byte total unchanged. -/
theorem scanGo_cats_key_seen (es : List DirEntry) :
    ∀ (seen : List (Nat × Nat)) (cats : List (Name × Nat)) (d i s : Nat),
      (∀ e ∈ es, e.stat = some { dev := d, ino := i, size := s, sym := false }) →
      (d, i) ∈ seen → ∀ c', catTotal (scanGo seen cats es).2.2 c' = catTotal cats c' := by
  induction es with
  | nil => intro seen cats d i s hall hmem c'; rfl
  | cons e rest ih =>
    intro seen cats d i s hall hmem c'
    have hst := hall e (by simp)
    have hae : analyzeFile seen e = (s, 0, seen) := by
      simp [analyzeFile, hst, hmem]
    show catTotal (scanGo (analyzeFile seen e).2.2
      (bumpCat cats (get_file_category e.name) (analyzeFile seen e).2.1) rest).2.2 c' = _
    rw [hae]
    rw [ih seen _ d i s (fun e' he' => hall e' (by simp [he'])) hmem c']
    rw [catTotal_bumpCat]
    split <;> rfl

/-- C10: the report's `total_size` sums each visited file's raw recorded size
(0 for symlinks and stat failures, the `lstat` size otherwise) — and a file
hardlinked under `k` visited paths of the same category therefore contributes
`k` times its size to the summary total while its category byte total receives
it only once. -/
theorem c10_summary_total_is_raw_sum (es es2 : List DirEntry) (d i s : Nat) (c : Name)
    (hall : ∀ e ∈ es2, e.stat = some { dev := d, ino := i, size := s, sym := false } ∧
      get_file_category e.name = c)
    (hne : es2 ≠ []) :
    (scanFiles es).1.sum = (es.map recSize).sum ∧
      (scanFiles es2).1.sum = es2.length * s ∧
      catTotal (scanFiles es2).2.2 c = s := by
  refine ⟨?_, ?_, ?_⟩
  · rw [scanFiles, scanGo_sizes]
  · rw [scanFiles, scanGo_sizes]
    have hs : ∀ x ∈ es2.map recSize, x = s := by
      intro x hx
      obtain ⟨e, he, hex⟩ := List.mem_map.mp hx
      rw [← hex, recSize, (hall e he).1]
      rfl
    rw [sumConstList _ s hs, List.length_map]
  · cases es2 with
    | nil => exact absurd rfl hne
    | cons e rest =>
      obtain ⟨hst, hcat⟩ := hall e (by simp)
      have hae : analyzeFile [] e = (s, s, [(d, i)]) := by
        simp [analyzeFile, hst]
      show catTotal (scanGo (analyzeFile [] e).2.2
        (bumpCat [] (get_file_category e.name) (analyzeFile [] e).2.1) rest).2.2 c = s
      rw [hae, hcat]
      rw [scanGo_cats_key_seen rest [(d, i)] _ d i s
        (fun e' he' => (hall e' (by simp [he'])).1) (by simp) c]
      simp [bumpCat, catTotal]

/-- C10 witness: on the concrete hardlinked pair, the summary total doubles the
size while the Documents byte total receives it once. -/
theorem c10_summary_total_is_raw_sum_w :
    (scanFiles c10Entries).1.sum = (c10Entries.map recSize).sum ∧
      (scanFiles c10Entries).1.sum = c10Entries.length * 40 ∧
      catTotal (scanFiles c10Entries).2.2 ("Documents".toList) = 40 :=
  c10_summary_total_is_raw_sum c10Entries c10Entries 2 3 40 ("Documents".toList)
    (by decide) (by decide)

/-! ## Claim C7: reverse-order undo and idempotent skipping -/

/-- An undo pass over moves whose `new` paths are all absent changes nothing and
records neither an undone nor a failed move. -/
theorem undoGo_all_absent (l : List Move) :
    ∀ (acc : FS × Nat × Nat), (∀ m' ∈ l, existsB acc.1 m'.newPath = false) →
      undoGo acc l = acc := by
  induction l with
  | nil => intro acc h; rfl
  | cons m' l ih =>
    intro acc h
    have h1 : undoStep acc m' = acc := by simp [undoStep, h m' (by simp)]
    show undoGo (undoStep acc m') l = acc
    rw [h1]
    exact ih acc (fun x hx => h x (by simp [hx]))

/-- C7: the undo replayer (a) leaves the state and both counters untouched on a
move whose `new` path no longer exists (skip without error), (b) processes a
persisted ledger most-recent-move-first (the last executed move is undone before
all earlier ones), (c) is a silent no-op with zero undone and zero failed moves
on a ledger none of whose `new` paths exist — which is why a second undo of an
already-reverted ledger does not fail — and (d) on a parsed nonempty ledger with
confirmation granted always finishes with a `completed` (success) outcome, never
an error. -/
theorem c7_undo_reverse_order_and_skip (S : FS) (u f : Nat) (m : Move)
    (ms : List Move) (led : Ledger) :
    (existsB S m.newPath = false → undoStep (S, u, f) m = (S, u, f)) ∧
      undoRun S (ms ++ [m]) = undoGo (undoStep (S, 0, 0) m) ms.reverse ∧
      ((∀ m' ∈ ms, existsB S m'.newPath = false) → undoRun S ms = (S, 0, 0)) ∧
      (led.moves ≠ [] →
        undoMoves S (some (some led)) true =
          (cleanupEmptyDirs (undoRun S led.moves).1,
            .completed (undoRun S led.moves).2.1 (undoRun S led.moves).2.2)) := by
  refine ⟨?_, ?_, ?_, ?_⟩
  · intro h
    simp [undoStep, h]
  · simp only [undoRun, List.reverse_append, List.reverse_cons, List.reverse_nil,
      List.nil_append, List.cons_append]
    rfl
  · intro h
    exact undoGo_all_absent ms.reverse (S, 0, 0)
      (fun x hx => h x (List.mem_reverse.mp hx))
  · intro h
    simp [undoMoves, h]

/-- C7 witness: the four parts of the reverse-order/skip theorem, applied at the
concrete root `c1InitialFS` and the concrete already-reverted move `c7Move`. -/
theorem c7_undo_reverse_order_and_skip_w :
    undoStep (c1InitialFS, 0, 0) c7Move = (c1InitialFS, 0, 0) ∧
      undoRun c1InitialFS ([c7Move] ++ [c7Move]) =
        undoGo (undoStep (c1InitialFS, 0, 0) c7Move) [c7Move].reverse ∧
      undoRun c1InitialFS [c7Move] = (c1InitialFS, 0, 0) ∧
      undoMoves c1InitialFS (some (some { moves := [c7Move] })) true =
        (cleanupEmptyDirs (undoRun c1InitialFS [c7Move]).1,
          .completed (undoRun c1InitialFS [c7Move]).2.1
            (undoRun c1InitialFS [c7Move]).2.2) :=
  have h := c7_undo_reverse_order_and_skip c1InitialFS 0 0 c7Move [c7Move]
    { moves := [c7Move] }
  ⟨h.1 (by decide), h.2.1, h.2.2.1 (by decide), h.2.2.2 (by decide)⟩

/-! ## Executor lemmas -/

/-- `eqExceptFinal` is reflexive. -/
theorem eqExceptFinal_refl (s : Sugg) : eqExceptFinal s s :=
  ⟨rfl, rfl, rfl, rfl, rfl, rfl, rfl, rfl, rfl⟩

/-- `_execute_single_move` returns the input suggestion changed at most in its
`final_path` field. -/
theorem execMove_sugg_frame (S : FS) (s : Sugg) : eqExceptFinal (execMove S s).2.2 s := by
  unfold execMove
  by_cases hex : existsB S s.originalPath = true
  · by_cases hcol : existsB S s.suggestedPath = true
    · simp only [hex, hcol, Bool.not_true, Bool.false_eq_true, if_false, if_true]
      split
      · simp [eqExceptFinal]
      · split <;> simp [eqExceptFinal]
    · simp only [hex, hcol, Bool.not_true, Bool.false_eq_true, if_false]
      split
      · simp [eqExceptFinal]
      · split <;> simp [eqExceptFinal]
  · simp only [Bool.not_eq_true', eq_false_of_ne_true hex, Bool.not_false, if_true]
    exact eqExceptFinal_refl s

/-- The ledger record appended by a successful `_execute_single_move` carries
the suggestion's original path and size. -/
theorem execMove_moved_data (S : FS) (s : Sugg) (m : Move)
    (h : (execMove S s).2.1 = .moved m) :
    m.originalPath = s.originalPath ∧ m.size = s.size := by
  unfold execMove at h
  by_cases hex : existsB S s.originalPath = true
  · by_cases hcol : existsB S s.suggestedPath = true
    · simp only [hex, hcol, Bool.not_true, Bool.false_eq_true, if_false, if_true] at h
      split at h
      · exact absurd h (by simp)
      · split at h
        · exact absurd h (by simp)
        · injection h with h'
          exact ⟨by rw [← h'], by rw [← h']⟩
    · simp only [hex, hcol, Bool.not_true, Bool.false_eq_true, if_false] at h
      split at h
      · exact absurd h (by simp)
      · split at h
        · exact absurd h (by simp)
        · injection h with h'
          exact ⟨by rw [← h'], by rw [← h']⟩
  · simp only [Bool.not_eq_true', eq_false_of_ne_true hex, Bool.not_false, if_true] at h
    exact absurd h (by simp)

/-- One terminal state per processed suggestion: ledger entries plus failures
plus skips add up to the number of predicate-satisfying suggestions. -/
theorem execLoop_counts (ss : List Sugg) : ∀ (S : FS) (p : Sugg → Bool),
    (execLoop S p ss).2.1.length + (execLoop S p ss).2.2.1 + (execLoop S p ss).2.2.2.1 =
      (ss.filter p).length := by
  induction ss with
  | nil => intro S p; rfl
  | cons s rest ih =>
    intro S p
    by_cases hp : p s
    · cases hout : (execMove S s).2.1 with
      | moved m =>
        simp only [execLoop, hp, if_true, hout, List.filter_cons_of_pos hp,
          List.length_cons]
        have := ih (execMove S s).1 p
        omega
      | failedMove =>
        simp only [execLoop, hp, if_true, hout, List.filter_cons_of_pos hp,
          List.length_cons]
        have := ih (execMove S s).1 p
        omega
      | skippedMove =>
        simp only [execLoop, hp, if_true, hout, List.filter_cons_of_pos hp,
          List.length_cons]
        have := ih (execMove S s).1 p
        omega
    · simp only [execLoop, hp, if_false, Bool.false_eq_true,
        List.filter_cons_of_neg (by simpa using hp)]
      exact ih S p

/-- Every ledger entry of the execution loop comes from a suggestion satisfying
the filter predicate, at that suggestion's original path. -/
theorem execLoop_moves_from (ss : List Sugg) : ∀ (S : FS) (p : Sugg → Bool) (m : Move),
    m ∈ (execLoop S p ss).2.1 →
      ∃ s ∈ ss, p s = true ∧ m.originalPath = s.originalPath := by
  induction ss with
  | nil => intro S p m hm; exact absurd hm (by simp [execLoop])
  | cons s rest ih =>
    intro S p m hm
    by_cases hp : p s
    · cases hout : (execMove S s).2.1 with
      | moved m0 =>
        simp only [execLoop, hp, if_true, hout, List.mem_cons] at hm
        cases hm with
        | inl hm =>
          exact ⟨s, by simp, hp, hm ▸ (execMove_moved_data S s m0 hout).1⟩
        | inr hm =>
          obtain ⟨s', hs', hps', hms'⟩ := ih (execMove S s).1 p m hm
          exact ⟨s', by simp [hs'], hps', hms'⟩
      | failedMove =>
        simp only [execLoop, hp, if_true, hout] at hm
        obtain ⟨s', hs', hps', hms'⟩ := ih (execMove S s).1 p m hm
        exact ⟨s', by simp [hs'], hps', hms'⟩
      | skippedMove =>
        simp only [execLoop, hp, if_true, hout] at hm
        obtain ⟨s', hs', hps', hms'⟩ := ih (execMove S s).1 p m hm
        exact ⟨s', by simp [hs'], hps', hms'⟩
    · simp only [execLoop, hp, if_false, Bool.false_eq_true] at hm
      obtain ⟨s', hs', hps', hms'⟩ := ih S p m hm
      exact ⟨s', by simp [hs'], hps', hms'⟩

/-- The execution loop returns as many records as it was given. -/
theorem execLoop_suggs_len (ss : List Sugg) : ∀ (S : FS) (p : Sugg → Bool),
    (execLoop S p ss).2.2.2.2.length = ss.length := by
  induction ss with
  | nil => intro S p; rfl
  | cons s rest ih =>
    intro S p
    by_cases hp : p s
    · cases hout : (execMove S s).2.1 <;>
        simp [execLoop, hp, hout, ih (execMove S s).1 p]
    · simp [execLoop, hp, ih S p]

/-- Positionally, the execution loop changes each record at most in its
`final_path` field. -/
theorem execLoop_suggs_frame (ss : List Sugg) : ∀ (S : FS) (p : Sugg → Bool) (i : Nat),
    i < ss.length →
      eqExceptFinal ((execLoop S p ss).2.2.2.2.getD i defaultSugg)
        (ss.getD i defaultSugg) := by
  induction ss with
  | nil => intro S p i h; exact absurd h (by simp)
  | cons s rest ih =>
    intro S p i h
    by_cases hp : p s
    · cases hout : (execMove S s).2.1 with
      | moved m0 =>
        simp only [execLoop, hp, if_true, hout]
        match i with
        | 0 => exact execMove_sugg_frame S s
        | j + 1 => exact ih (execMove S s).1 p j (by simpa using h)
      | failedMove =>
        simp only [execLoop, hp, if_true, hout]
        match i with
        | 0 => exact execMove_sugg_frame S s
        | j + 1 => exact ih (execMove S s).1 p j (by simpa using h)
      | skippedMove =>
        simp only [execLoop, hp, if_true, hout]
        match i with
        | 0 => exact execMove_sugg_frame S s
        | j + 1 => exact ih (execMove S s).1 p j (by simpa using h)
    · simp only [execLoop, hp, if_false, Bool.false_eq_true]
      match i with
      | 0 => exact eqExceptFinal_refl s
      | j + 1 => exact ih S p j (by simpa using h)

/-! ## Claim C2: the batch contract of the executor -/

/-- C2 counterexample: an executor invocation whose filtered list is empty (here
the only suggestion has `move_required = false`) returns early and persists
**no** rollback ledger, so the ledger is not persisted exactly once on every
invocation. -/
theorem c2_empty_batch_saves_no_ledger :
    (execBatch c4CollisionFS [c2SuggNoMove] none none false true).saveCount = 0 ∧
      (execBatch c4CollisionFS [c2SuggNoMove] none none false true).savedLedger = none := by
  decide

/-- C2 (amended): the executor acts only on suggestions passing the optional
category/year filters with `move_required` true — every persisted ledger entry
originates from such a suggestion, and the moved/failed/skipped tallies add up
to the filtered count — and it persists the rollback ledger exactly once
whenever the filtered list is nonempty and confirmation is not declined (in
particular even when every attempted move failed or was skipped), but zero
times when the filtered list is empty or confirmation is declined. -/
theorem c2_batch_filter_and_single_save (S : FS) (suggs : List Sugg)
    (cf yf : Option Name) (ca cy : Bool) :
    (execBatch S suggs cf yf ca cy).saveCount =
        (if suggs.filter (execPred cf yf) ≠ [] ∧ (ca = false ∨ cy = true) then 1 else 0) ∧
      (∀ m ∈ (execBatch S suggs cf yf ca cy).moves,
        ∃ s ∈ suggs, execPred cf yf s = true ∧ m.originalPath = s.originalPath) ∧
      (execBatch S suggs cf yf ca cy).moves.length +
          (execBatch S suggs cf yf ca cy).failedCount +
          (execBatch S suggs cf yf ca cy).skippedCount =
        (suggs.filter (execPred cf yf)).length := by
  by_cases hf : suggs.filter (execPred cf yf) = []
  · refine ⟨?_, ?_, ?_⟩
    · simp [execBatch, hf]
    · intro m hm
      exact absurd hm (by simp [execBatch, hf])
    · simp [execBatch, hf]
  · cases ca with
    | false =>
      refine ⟨?_, ?_, ?_⟩
      · simp [execBatch, hf]
      · intro m hm
        simp only [execBatch, hf, if_neg, if_false, Bool.false_and,
          Bool.false_eq_true] at hm
        exact execLoop_moves_from suggs S (execPred cf yf) m hm
      · simp only [execBatch, hf, if_neg, if_false, Bool.false_and,
          Bool.false_eq_true]
        exact execLoop_counts suggs S (execPred cf yf)
    | true =>
      cases cy with
      | false =>
        refine ⟨?_, ?_, ?_⟩
        · simp [execBatch, hf]
        · intro m hm
          exact absurd hm (by simp [execBatch, hf])
        · simp [execBatch, hf]
      | true =>
        refine ⟨?_, ?_, ?_⟩
        · simp [execBatch, hf]
        · intro m hm
          simp only [execBatch, hf, Bool.not_true, Bool.and_false,
            Bool.false_eq_true, if_false] at hm
          exact execLoop_moves_from suggs S (execPred cf yf) m hm
        · simp only [execBatch, hf, Bool.not_true, Bool.and_false,
            Bool.false_eq_true, if_false]
          exact execLoop_counts suggs S (execPred cf yf)

/-- C2 witness: the batch contract applied at a concrete one-suggestion batch
whose move succeeds: the ledger is saved exactly once, its single entry
(`c2MoveW`) originates from the filtered suggestion, and the tallies add up. -/
theorem c2_batch_filter_and_single_save_w :
    (execBatch c2FS [c2Sugg] none none false true).saveCount =
        (if [c2Sugg].filter (execPred none none) ≠ [] ∧
            ((false : Bool) = false ∨ (true : Bool) = true) then 1 else 0) ∧
      (∃ s ∈ [c2Sugg], execPred none none s = true ∧
        c2MoveW.originalPath = s.originalPath) ∧
      (execBatch c2FS [c2Sugg] none none false true).moves.length +
          (execBatch c2FS [c2Sugg] none none false true).failedCount +
          (execBatch c2FS [c2Sugg] none none false true).skippedCount =
        ([c2Sugg].filter (execPred none none)).length :=
  have h := c2_batch_filter_and_single_save c2FS [c2Sugg] none none false true
  ⟨h.1, h.2.1 c2MoveW (by decide), h.2.2⟩

/-! ## Claim C9: execution and the immutability of suggestion records -/

/-- C9 counterexample: executing a batch does mutate a suggestion record — when
the destination collides, `_execute_single_move` writes the resolved path into
the record's `final_path` key, so the record differs from its pre-execution
value. -/
theorem c9_execution_mutates_on_collision :
    (execBatch c4CollisionFS [c4CollisionSugg] none none false true).suggsOut ≠
        [c4CollisionSugg] ∧
      ((execBatch c4CollisionFS [c4CollisionSugg] none none false true).suggsOut.getD 0
          defaultSugg).finalPath =
        some [nmDocuments, nm2023, "a (1).txt".toList] := by
  decide

/-- C9 (amended): executing a batch leaves every field of every input suggestion
record unchanged **except** `final_path`, which the executor writes when it
resolves a destination collision: the output list has the same length and each
record agrees with its input positionally on all planner fields.  (Operator
review may additionally rewrite `suggested_name`/`suggested_path`, the
`rename_suggested` flag and `move_required`, and stamps a temporary `_id`,
before execution.) -/
theorem c9_execution_only_writes_final_path (S : FS) (suggs : List Sugg)
    (cf yf : Option Name) (ca cy : Bool) (i : Nat) (h : i < suggs.length) :
    (execBatch S suggs cf yf ca cy).suggsOut.length = suggs.length ∧
      eqExceptFinal ((execBatch S suggs cf yf ca cy).suggsOut.getD i defaultSugg)
        (suggs.getD i defaultSugg) := by
  by_cases hf : suggs.filter (execPred cf yf) = []
  · constructor
    · simp [execBatch, hf]
    · simp only [execBatch, hf, if_pos]
      exact eqExceptFinal_refl _
  · by_cases hask : (ca && !cy) = true
    · constructor
      · simp [execBatch, hf, hask]
      · simp only [execBatch, hf, hask, if_false, if_true, Bool.false_eq_true]
        exact eqExceptFinal_refl _
    · constructor
      · simp only [execBatch, hf, hask, if_false, Bool.false_eq_true]
        exact execLoop_suggs_len suggs S (execPred cf yf)
      · simp only [execBatch, hf, hask, if_false, Bool.false_eq_true]
        exact execLoop_suggs_frame suggs S (execPred cf yf) i h

/-- C9 witness: the frame property applied at the concrete colliding batch. -/
theorem c9_execution_only_writes_final_path_w :
    (execBatch c4CollisionFS [c4CollisionSugg] none none false true).suggsOut.length =
        [c4CollisionSugg].length ∧
      eqExceptFinal
        ((execBatch c4CollisionFS [c4CollisionSugg] none none false true).suggsOut.getD 0
          defaultSugg)
        ([c4CollisionSugg].getD 0 defaultSugg) :=
  c9_execution_only_writes_final_path c4CollisionFS [c4CollisionSugg] none none false true 0
    (by decide)

/-! ## Decimal counter rendering lemmas -/

/-- `digitCh` is injective on decimal digits. -/
theorem digitCh_inj {a b : Nat} (ha : a < 10) (hb : b < 10) (h : digitCh a = digitCh b) :
    a = b := by
  interval_cases a <;> interval_cases b <;> revert h <;> decide

/-- With sufficient fuel, `natReprGo` renders exactly the reversed base-10
digit list. -/
theorem natReprGo_eq (fuel : Nat) : ∀ n : Nat, n ≤ fuel →
    natReprGo fuel n = ((Nat.digits 10 n).map digitCh).reverse := by
  induction fuel with
  | zero =>
    intro n hn
    interval_cases n
    simp [natReprGo]
  | succ fuel ih =>
    intro n hn
    by_cases h0 : n = 0
    · subst h0; simp [natReprGo]
    · have hpos : 0 < n := Nat.pos_of_ne_zero h0
      have hdiv : n / 10 < n := Nat.div_lt_self hpos (by norm_num)
      rw [natReprGo, if_neg h0, ih (n / 10) (by omega),
        Nat.digits_def' (by norm_num : (1 : ℕ) < 10) hpos]
      simp

/-- Mapping `digitCh` over digit lists is injective. -/
theorem map_digitCh_list_inj : ∀ (l1 l2 : List Nat), (∀ d ∈ l1, d < 10) →
    (∀ d ∈ l2, d < 10) → l1.map digitCh = l2.map digitCh → l1 = l2 := by
  intro l1
  induction l1 with
  | nil =>
    intro l2 _ _ h
    cases l2 with
    | nil => rfl
    | cons b r2 => simp at h
  | cons a r ih =>
    intro l2 h1 h2 h
    cases l2 with
    | nil => simp at h
    | cons b r2 =>
      simp only [List.map_cons, List.cons.injEq] at h
      rw [digitCh_inj (h1 a (by simp)) (h2 b (by simp)) h.1,
        ih r2 (fun d hd => h1 d (by simp [hd])) (fun d hd => h2 d (by simp [hd])) h.2]

/-- Python decimal rendering of naturals is injective. -/
theorem natRepr_inj {m n : Nat} (h : natRepr m = natRepr n) : m = n := by
  have key : ∀ k : Nat, k ≠ 0 → natRepr k = ((Nat.digits 10 k).map digitCh).reverse := by
    intro k hk
    rw [natRepr, if_neg hk, natReprGo_eq k k le_rfl]
  have zeroOf : ∀ k : Nat, k ≠ 0 →
      ((Nat.digits 10 k).map digitCh).reverse = ['0'] → False := by
    intro k hk hrev
    have h' : (Nat.digits 10 k).map digitCh = ['0'] := by
      have := congrArg List.reverse hrev
      simpa using this
    cases hd : Nat.digits 10 k with
    | nil => rw [hd] at h'; simp at h'
    | cons d rest =>
      rw [hd] at h'
      simp only [List.map_cons, List.cons.injEq, List.map_eq_nil_iff] at h'
      obtain ⟨hd0, hrest⟩ := h'
      have hdlt : d < 10 :=
        Nat.digits_lt_base (by norm_num) (hd ▸ List.mem_cons_self d rest)
      have hdz : d = 0 := digitCh_inj hdlt (by norm_num) (by rw [hd0]; rfl)
      have hofd := Nat.ofDigits_digits 10 k
      rw [hd, hrest, hdz] at hofd
      simp [Nat.ofDigits] at hofd
      exact hk hofd.symm
  by_cases hm : m = 0 <;> by_cases hn : n = 0
  · rw [hm, hn]
  · exfalso
    rw [hm, key n hn] at h
    exact zeroOf n hn h.symm
  · exfalso
    rw [hn, key m hm] at h
    exact zeroOf m hm h
  · rw [key m hm, key n hn] at h
    have h2 : (Nat.digits 10 m).map digitCh = (Nat.digits 10 n).map digitCh := by
      have := congrArg List.reverse h
      simpa using this
    have h3 : Nat.digits 10 m = Nat.digits 10 n :=
      map_digitCh_list_inj _ _ (fun d hd => Nat.digits_lt_base (by norm_num) hd)
        (fun d hd => Nat.digits_lt_base (by norm_num) hd) h2
    calc m = Nat.ofDigits 10 (Nat.digits 10 m) := (Nat.ofDigits_digits 10 m).symm
      _ = Nat.ofDigits 10 (Nat.digits 10 n) := by rw [h3]
      _ = n := Nat.ofDigits_digits 10 n

/-- The collision-suffix candidate names are pairwise distinct across counters. -/
theorem candName_inj (stem sfx : Name) {j k : Nat}
    (h : candName stem sfx j = candName stem sfx k) : j = k := by
  unfold candName at h
  have h1 : (' ' :: '(' :: (natRepr j ++ (')' :: sfx))) =
      (' ' :: '(' :: (natRepr k ++ (')' :: sfx))) := by
    have := congrArg (List.drop stem.length) h
    simpa [List.drop_left] using this
  simp only [List.cons.injEq, true_and] at h1
  have hlen : (natRepr j).length = (natRepr k).length := by
    have := congrArg List.length h1
    simp at this
    omega
  exact natRepr_inj (List.append_inj_left h1 hlen)

/-! ## Existing-path membership lemmas -/

/-- A successful file lookup means the path is among the file keys. -/
theorem lookupF_isSome_mem (l : List (FsPath × Nat)) (p : FsPath)
    (h : (lookupF l p).isSome) : p ∈ l.map Prod.fst := by
  induction l with
  | nil => simp [lookupF] at h
  | cons qv r ih =>
    obtain ⟨q, v⟩ := qv
    by_cases hq : q = p
    · simp [hq]
    · rw [lookupF, if_neg hq] at h
      simp [ih h]

/-- `memP` is list membership. -/
theorem memP_mem {p : FsPath} {l : List FsPath} (h : memP p l = true) : p ∈ l := by
  simp only [memP, List.any_eq_true, decide_eq_true_eq] at h
  obtain ⟨q, hq, hqp⟩ := h
  exact hqp ▸ hq

/-- An existing path is among the occupied paths. -/
theorem existsB_mem {S : FS} {p : FsPath} (h : existsB S p = true) : p ∈ occList S := by
  unfold existsB at h
  rw [Bool.or_eq_true] at h
  unfold occList
  cases h with
  | inl h => exact List.mem_append_left _ (lookupF_isSome_mem S.files p h)
  | inr h => exact List.mem_append_right _ (memP_mem h)

/-- Pigeonhole freshness: among the first `|occupied| + 1` candidate counters
starting at 1, some candidate path does not exist (the candidates are pairwise
distinct while only `|occupied|` paths exist). -/
theorem exists_free_cand (S : FS) (parent : FsPath) (stem sfx : Name) :
    ∃ j : Nat, 1 ≤ j ∧ j ≤ (occList S).length + 1 ∧
      existsB S (parent ++ [candName stem sfx j]) = false := by
  by_contra hcon
  push_neg at hcon
  have hall : ∀ j ∈ Finset.Icc 1 ((occList S).length + 1),
      (parent ++ [candName stem sfx j]) ∈ (occList S).toFinset := by
    intro j hj
    rw [Finset.mem_Icc] at hj
    rw [List.mem_toFinset]
    apply existsB_mem
    have hne := hcon j hj.1 hj.2
    rw [Bool.ne_false_iff] at hne
    exact hne
  have hinj : Set.InjOn (fun j => parent ++ [candName stem sfx j])
      (Finset.Icc 1 ((occList S).length + 1) : Finset Nat) := by
    intro a _ b _ hab
    simp only at hab
    have h2 : [candName stem sfx a] = [candName stem sfx b] := by
      have := congrArg (List.drop parent.length) hab
      simpa [List.drop_left] using this
    simp only [List.cons.injEq, and_true] at h2
    exact candName_inj stem sfx h2
  have hcard := Finset.card_le_card_of_injOn _ hall hinj
  rw [Nat.card_Icc] at hcard
  have hle := List.toFinset_card_le (l := occList S)
  omega

/-- The counter loop returns the first free candidate at or after its starting
counter, provided some candidate within its fuel is free. -/
theorem uniqueLoop_spec (S : FS) (parent : FsPath) (stem sfx : Name) :
    ∀ fuel k : Nat,
      (∃ j, k ≤ j ∧ j < k + fuel ∧ existsB S (parent ++ [candName stem sfx j]) = false) →
      ∃ q j, uniqueLoop S parent stem sfx fuel k = some q ∧
        q = parent ++ [candName stem sfx j] ∧ existsB S q = false ∧ k ≤ j ∧
        ∀ i, k ≤ i → i < j → existsB S (parent ++ [candName stem sfx i]) = true := by
  intro fuel
  induction fuel with
  | zero =>
    intro k hex
    obtain ⟨j, hj1, hj2, _⟩ := hex
    omega
  | succ fuel ih =>
    intro k hex
    by_cases hk : existsB S (parent ++ [candName stem sfx k]) = true
    · obtain ⟨j, hj1, hj2, hj3⟩ := hex
      have hjk : j ≠ k := by
        intro hh
        rw [hh, hk] at hj3
        cases hj3
      obtain ⟨q, j', hq1, hq2, hq3, hq4, hq5⟩ := ih (k + 1) ⟨j, by omega, by omega, hj3⟩
      refine ⟨q, j', ?_, hq2, hq3, by omega, ?_⟩
      · simp only [uniqueLoop, hk, if_true]
        exact hq1
      · intro i hi1 hi2
        by_cases hik : i = k
        · rw [hik]; exact hk
        · exact hq5 i (by omega) hi2
    · refine ⟨parent ++ [candName stem sfx k], k, ?_, rfl, by simpa using hk, le_rfl, ?_⟩
      · simp only [uniqueLoop, if_neg hk]
      · intro i hi1 hi2
        omega

/-! ## Claim C4: collision-safe unique destination paths -/

/-- C4: whenever the destination path of a move already exists, the rewritten
destination returned by `_get_unique_path` is of the form
`parent / (stem ++ " (n)" ++ suffix)` for some counter `n ≥ 1`, it is the
*first* such candidate that does not exist (all candidates for smaller counters
from 1 on exist), and in particular it differs from every path that existed
before the move.  Concretely, with `Documents/2023/a.txt` pre-existing, the
executed move of `a.txt` uses the final path `Documents/2023/a (1).txt`,
recording it in the ledger, while the pre-existing file is left in place. -/
theorem c4_collision_unique_path (S : FS) (p : FsPath)
    (hex : existsB S p = true) (hp : p ≠ []) :
    (∃ q k, getUniquePath S p = some q ∧ existsB S q = false ∧ 1 ≤ k ∧
      q = p.dropLast ++
        [candName (pathlibSplit (p.getLastD [])).1 (pathlibSplit (p.getLastD [])).2 k] ∧
      ∀ i, 1 ≤ i → i < k →
        existsB S (p.dropLast ++
          [candName (pathlibSplit (p.getLastD [])).1 (pathlibSplit (p.getLastD [])).2 i]) =
          true) ∧
    (execMove c4CollisionFS c4CollisionSugg).2.1 =
      .moved { originalPath := [nmA],
               newPath := [nmDocuments, nm2023, "a (1).txt".toList], size := 7 } ∧
    lookupF (execMove c4CollisionFS c4CollisionSugg).1.files
      [nmDocuments, nm2023, "a (1).txt".toList] = some 2 ∧
    lookupF (execMove c4CollisionFS c4CollisionSugg).1.files
      [nmDocuments, nm2023, nmA] = some 1 := by
  refine ⟨?_, by decide, by decide, by decide⟩
  unfold getUniquePath
  rw [hex]
  simp only [Bool.true_eq_false, if_false]
  cases hlast : p.getLast? with
  | none =>
    rw [List.getLast?_eq_none_iff] at hlast
    exact absurd hlast hp
  | some nm =>
    have hgd : p.getLastD [] = nm := by
      rw [List.getLastD_eq_getLast?, hlast]
      rfl
    obtain ⟨j, hj1, hj2, hj3⟩ :=
      exists_free_cand S p.dropLast (pathlibSplit nm).1 (pathlibSplit nm).2
    obtain ⟨q, k, h1, h2, h3, h4, h5⟩ :=
      uniqueLoop_spec S p.dropLast (pathlibSplit nm).1 (pathlibSplit nm).2
        ((occList S).length + 1) 1 ⟨j, hj1, by omega, hj3⟩
    rw [hgd]
    exact ⟨q, k, h1, h3, h4, h2, fun i hi1 hi2 => h5 i hi1 hi2⟩

/-- C4 witness: the unique-path contract applied at the concrete pre-existing
destination `Documents/2023/a.txt`. -/
theorem c4_collision_unique_path_w :
    (∃ q k, getUniquePath c4CollisionFS [nmDocuments, nm2023, nmA] = some q ∧
      existsB c4CollisionFS q = false ∧ 1 ≤ k ∧
      q = [nmDocuments, nm2023, nmA].dropLast ++
        [candName (pathlibSplit ([nmDocuments, nm2023, nmA].getLastD [])).1
          (pathlibSplit ([nmDocuments, nm2023, nmA].getLastD [])).2 k] ∧
      ∀ i, 1 ≤ i → i < k →
        existsB c4CollisionFS ([nmDocuments, nm2023, nmA].dropLast ++
          [candName (pathlibSplit ([nmDocuments, nm2023, nmA].getLastD [])).1
            (pathlibSplit ([nmDocuments, nm2023, nmA].getLastD [])).2 i]) = true) ∧
    (execMove c4CollisionFS c4CollisionSugg).2.1 =
      .moved { originalPath := [nmA],
               newPath := [nmDocuments, nm2023, "a (1).txt".toList], size := 7 } ∧
    lookupF (execMove c4CollisionFS c4CollisionSugg).1.files
      [nmDocuments, nm2023, "a (1).txt".toList] = some 2 ∧
    lookupF (execMove c4CollisionFS c4CollisionSugg).1.files
      [nmDocuments, nm2023, nmA] = some 1 :=
  c4_collision_unique_path c4CollisionFS [nmDocuments, nm2023, nmA] (by decide) (by decide)

end OrganEyes
